import Mathlib

/-!
Verification of the voicetree repository's specification against its code.

The repository has two kinds of components:

* the ingestion gates `RateLimiter` (src/backend/context_ingestion/rate_limiter.py)
  and `DeduplicationWindow` (src/backend/context_ingestion/dedup.py), whose code is
  present and is embedded below verbatim (python lists/dicts become Lean lists and
  association lists, `time.monotonic()` becomes an explicit rational `now` argument
  with a monotonicity hypothesis);
* the `MarkdownTree` knowledge-graph engine
  (backend/markdown_tree_manager/markdown_tree_ds.py), whose implementation file is
  not part of the source tree here (only its unit tests are), and which is therefore
  modelled from the specification's own words (spec sections 3, 4.1-4.3, 4.6).
-/

/-- Modelled from the spec: timestamps are modelled as an abstract logical clock
value (a natural number) supplied by the caller; the original code stamps entries
with the wall-clock time at the moment of the mutation. A version entry is an
immutable snapshot of a node's content/summary taken immediately before an
overwrite (spec section 3 and glossary). -/
structure VersionEntry where
  content : String
  summary : String
  timestamp : Nat
deriving DecidableEq, Repr

/-- Modelled from the spec: the Node record of spec section 3 with its attributes
`title`, `content`, `summary`, `parent_id` (`none` denotes root), `children`,
`relationships` (mapping from target node id to relation-label string), `tags`,
`color`, `skip_title`, `filename`, `num_appends`, `version_history` and the
optional provenance strings. The implementation file
backend/markdown_tree_manager/markdown_tree_ds.py is missing from src/. -/
structure Node where
  id : Nat
  title : String
  content : String
  summary : String
  parent_id : Option Nat
  children : List Nat
  relationships : List (Nat × String)
  tags : List String
  color : Option String
  skip_title : Bool
  filename : String
  num_appends : Nat
  version_history : List VersionEntry
  source_type : Option String
  source_ref : Option String
deriving DecidableEq, Repr

/-- Association-list lookup by key, mirroring python `dict.get`. -/
def alistLookup {β : Type} (l : List (Nat × β)) (k : Nat) : Option β :=
  (l.find? (fun e => e.1 = k)).map (fun e => e.2)

/-- Association-list assignment, mirroring python `d[k] = v`: replace the value in
place when the key is present, append a new entry at the end otherwise. -/
def alistInsert {β : Type} (l : List (Nat × β)) (k : Nat) (v : β) : List (Nat × β) :=
  if l.any (fun e => e.1 = k) then l.map (fun e => if e.1 = k then (k, v) else e)
  else l ++ [(k, v)]

/-- Apply `f` to the value stored under key `k` (no effect if `k` is absent). -/
def modifyValue {β : Type} (l : List (Nat × β)) (k : Nat) (f : β → β) : List (Nat × β) :=
  l.map (fun e => if e.1 = k then (e.1, f e.2) else e)

/-- Set-like insertion into a children list. -/
def addChild (l : List Nat) (c : Nat) : List Nat :=
  if c ∈ l then l else l ++ [c]

/-- Modelled from the spec: lower-case a string character by character (used for
the exact case-insensitive phase of `get_node_id_from_name`, spec section 4.6). -/
def lowerStr (s : String) : String :=
  String.mk (s.data.map Char.toLower)

/-- Modelled from the spec: normalization used by the fuzzy phase of
`get_node_id_from_name` — lower-case the string and treat the underscore and the
space as equivalent separators (spec section 4.6). -/
def normalizeName (s : String) : String :=
  String.mk (s.data.map (fun c => if c = '_' then ' ' else c.toLower))

/-- Modelled from the spec: slug characters of a filename — lowercased title with
runs of non-alphanumeric characters collapsed to single underscores
(spec section 4.1). -/
def slugChars : List Char → List Char
  | [] => []
  | [c] => if c.isAlphanum then [c.toLower] else ['_']
  | c :: c2 :: cs =>
    if c.isAlphanum then c.toLower :: slugChars (c2 :: cs)
    else if c2.isAlphanum then '_' :: slugChars (c2 :: cs)
    else slugChars (c2 :: cs)

/-- Modelled from the spec: stable filename slug generated from the title at node
creation, suffixed `.md` (spec section 4.1). -/
def slugify (title : String) : String :=
  String.mk (slugChars title.data) ++ ".md"

/-- Modelled from the spec: a reversible mutation record of the command-based
undo/redo subsystem (spec section 4.3), a tagged variant over create / update /
append / remove / connect carrying enough pre-state to invert the operation. -/
inductive Command where
  | create (id : Nat) (node : Node)
  | update (id : Nat) (oldContent oldSummary newContent newSummary : String) (ts : Nat)
  | append (id : Nat) (oldContent text : String)
  | removeNode (id : Nat) (node : Node) (childLabels : List (Nat × Option String))
  | connect (childId : Nat) (oldParent : Option Nat) (oldLabel : Option String)
      (newParent : Nat) (rel : String)
deriving DecidableEq, Repr

/-- Modelled from the spec: the aggregate root of spec section 3 — the node
mapping (`id → Node`), the monotonic id counter, the undo stack and the redo
stack. The implementation file backend/markdown_tree_manager/markdown_tree_ds.py
is missing from src/; this model follows the spec and the unit tests' surface. -/
structure MarkdownTree where
  tree : List (Nat × Node)
  next_node_id : Nat
  undo_stack : List Command
  redo_stack : List Command
deriving DecidableEq, Repr

/-- Modelled from the spec: a freshly constructed tree — empty store, next id 1,
empty undo/redo stacks. -/
def MarkdownTree.empty : MarkdownTree :=
  ⟨[], 1, [], []⟩

/-- Modelled from the spec: `create(title, parent_id, content, summary,
relationship_to_parent, skip_title) → id` (spec section 4.1). Allocates the next
id; if `parent_id` does not refer to a live node the node is created as a root
rather than failing; generates the filename slug; initializes `tags=[]`,
`version_history=[]`, `num_appends=0`, `color=None`; mirrors the parent link in
`relationships`; records the inverse command and clears the redo stack. -/
def MarkdownTree.create_new_node (t : MarkdownTree) (title : String)
    (parentId : Option Nat) (content summary relationship_to_parent : String)
    (skip_title : Bool) : Nat × MarkdownTree :=
  let nid := t.next_node_id
  let liveParent : Option Nat :=
    match parentId with
    | some p => if (alistLookup t.tree p).isSome then some p else none
    | none => none
  let node : Node :=
    { id := nid
      title := title
      content := content
      summary := summary
      parent_id := liveParent
      children := []
      relationships :=
        match liveParent with
        | some p => [(p, relationship_to_parent)]
        | none => []
      tags := []
      color := none
      skip_title := skip_title
      filename := slugify title
      num_appends := 0
      version_history := []
      source_type := none
      source_ref := none }
  let store1 := alistInsert t.tree nid node
  let store2 :=
    match liveParent with
    | some p => modifyValue store1 p (fun pn => { pn with children := addChild pn.children nid })
    | none => store1
  (nid, { tree := store2
          next_node_id := nid + 1
          undo_stack := Command.create nid node :: t.undo_stack
          redo_stack := [] })

/-- Modelled from the spec: `update(id, new_content, new_summary)`
(spec section 4.2) — fails with `NotFound` if `id` is absent; otherwise appends
the pre-update `content`/`summary` with a timestamp to `version_history`, then
replaces `content`/`summary`; does not touch `num_appends`; records the inverse
command and clears the redo stack. -/
def MarkdownTree.update_node (t : MarkdownTree) (id : Nat)
    (newContent newSummary : String) (now : Nat) : Except String MarkdownTree :=
  match alistLookup t.tree id with
  | none => .error "NotFound"
  | some n =>
    .ok { t with
          tree := alistInsert t.tree id
            { n with
              content := newContent
              summary := newSummary
              version_history := n.version_history ++ [⟨n.content, n.summary, now⟩] }
          undo_stack :=
            Command.update id n.content n.summary newContent newSummary now :: t.undo_stack
          redo_stack := [] }

/-- Modelled from the spec: `append(id, text)` (spec section 4.2) — fails with
`NotFound` if `id` is absent; otherwise concatenates `text` onto the existing
content with a newline separator and increments `num_appends`; writes no
version-history entry; records the inverse command and clears the redo stack. -/
def MarkdownTree.append_node_content (t : MarkdownTree) (id : Nat)
    (text : String) : Except String MarkdownTree :=
  match alistLookup t.tree id with
  | none => .error "NotFound"
  | some n =>
    .ok { t with
          tree := alistInsert t.tree id
            { n with
              content := n.content ++ "\n" ++ text
              num_appends := n.num_appends + 1 }
          undo_stack := Command.append id n.content text :: t.undo_stack
          redo_stack := [] }

/-- Entry fixup applied to every surviving entry when node `id` (with record `n`)
is removed: detach `id` from its parent's children, orphan the direct children of
`id` (set their `parent_id` to none and drop their parent edge towards `id`). -/
def removeFix (n : Node) (id : Nat) (e : Nat × Node) : Nat × Node :=
  let e1 :=
    if n.parent_id = some e.1 then
      (e.1, { e.2 with children := e.2.children.filter (fun c => c ≠ id) })
    else e
  if e1.1 ∈ n.children then
    (e1.1, { e1.2 with
             parent_id := none
             relationships := e1.2.relationships.filter (fun r => r.1 ≠ id) })
  else e1

/-- Modelled from the spec: `remove(id) → bool` (spec section 4.2) — returns
`false` if `id` is absent (no error, no mutation); otherwise detaches `id` from
its parent's children set, orphans the direct children of `id`, deletes the node
from the store, records the inverse command and clears the redo stack. -/
def MarkdownTree.remove_node (t : MarkdownTree) (id : Nat) : Bool × MarkdownTree :=
  match alistLookup t.tree id with
  | none => (false, t)
  | some n =>
    let childLabels : List (Nat × Option String) :=
      n.children.map (fun c =>
        (c, match alistLookup t.tree c with
            | some cn => alistLookup cn.relationships id
            | none => none))
    (true, { t with
             tree := (t.tree.filter (fun e => e.1 ≠ id)).map (removeFix n id)
             undo_stack := Command.removeNode id n childLabels :: t.undo_stack
             redo_stack := [] })

/-- Modelled from the spec: `connect(new_parent_id, child_id, relation)`
(spec section 4.2) — fails with `NotFound` if either id is absent; removes the
child from its current parent's children and drops the old parent edge from the
child's relationships; sets `parent_id`, adds the child to the new parent's
children, and sets `relationships[new_parent_id] = relation`; records the inverse
command and clears the redo stack. -/
def MarkdownTree.set_parent_child_connection (t : MarkdownTree)
    (newParent childId : Nat) (rel : String) : Except String MarkdownTree :=
  match alistLookup t.tree newParent, alistLookup t.tree childId with
  | some _, some child =>
    let oldParent := child.parent_id
    let oldLabel : Option String :=
      match oldParent with
      | some op => alistLookup child.relationships op
      | none => none
    let s1 :=
      match oldParent with
      | some op =>
        modifyValue t.tree op (fun pn =>
          { pn with children := pn.children.filter (fun c => c ≠ childId) })
      | none => t.tree
    let s2 :=
      modifyValue s1 childId (fun c =>
        { c with
          parent_id := some newParent
          relationships :=
            alistInsert
              (match oldParent with
               | some op => c.relationships.filter (fun r => r.1 ≠ op)
               | none => c.relationships)
              newParent rel })
    let s3 :=
      modifyValue s2 newParent (fun pn =>
        { pn with children := addChild pn.children childId })
    .ok { t with
          tree := s3
          undo_stack := Command.connect childId oldParent oldLabel newParent rel :: t.undo_stack
          redo_stack := [] }
  | _, _ => .error "NotFound"

/-- Modelled from the spec: the inverse action of a recorded command, applied to
the node store by `undo` (spec section 4.3). -/
def undoCommand (s : List (Nat × Node)) : Command → List (Nat × Node)
  | .create id node =>
    let s1 := s.filter (fun e => e.1 ≠ id)
    match node.parent_id with
    | some p => modifyValue s1 p (fun pn => { pn with children := pn.children.filter (fun c => c ≠ id) })
    | none => s1
  | .update id oldC oldS _ _ _ =>
    modifyValue s id (fun n =>
      { n with content := oldC, summary := oldS, version_history := n.version_history.dropLast })
  | .append id oldC _ =>
    modifyValue s id (fun n => { n with content := oldC, num_appends := n.num_appends - 1 })
  | .removeNode id node childLabels =>
    let s1 := alistInsert s id node
    let s2 :=
      match node.parent_id with
      | some p => modifyValue s1 p (fun pn => { pn with children := addChild pn.children id })
      | none => s1
    childLabels.foldl (fun acc cl =>
      modifyValue acc cl.1 (fun cn =>
        { cn with
          parent_id := some id
          relationships :=
            match cl.2 with
            | some lab => alistInsert cn.relationships id lab
            | none => cn.relationships })) s2
  | .connect childId oldParent oldLabel newParent _ =>
    let s1 :=
      modifyValue s newParent (fun pn =>
        { pn with children := pn.children.filter (fun c => c ≠ childId) })
    let s2 :=
      modifyValue s1 childId (fun c =>
        { c with
          parent_id := oldParent
          relationships :=
            match oldParent, oldLabel with
            | some op, some lab =>
              alistInsert (c.relationships.filter (fun r => r.1 ≠ newParent)) op lab
            | _, _ => c.relationships.filter (fun r => r.1 ≠ newParent) })
    match oldParent with
    | some op => modifyValue s2 op (fun pn => { pn with children := addChild pn.children childId })
    | none => s2

/-- Modelled from the spec: the forward action of a recorded command, reapplied
to the node store by `redo` (spec section 4.3). -/
def redoCommand (s : List (Nat × Node)) : Command → List (Nat × Node)
  | .create id node =>
    let s1 := alistInsert s id node
    match node.parent_id with
    | some p => modifyValue s1 p (fun pn => { pn with children := addChild pn.children id })
    | none => s1
  | .update id oldC oldS newC newS ts =>
    modifyValue s id (fun n =>
      { n with
        content := newC
        summary := newS
        version_history := n.version_history ++ [⟨oldC, oldS, ts⟩] })
  | .append id oldC text =>
    modifyValue s id (fun n =>
      { n with content := oldC ++ "\n" ++ text, num_appends := n.num_appends + 1 })
  | .removeNode id node _ =>
    (s.filter (fun e => e.1 ≠ id)).map (removeFix node id)
  | .connect childId oldParent _ newParent rel =>
    let s1 :=
      match oldParent with
      | some op =>
        modifyValue s op (fun pn =>
          { pn with children := pn.children.filter (fun c => c ≠ childId) })
      | none => s
    let s2 :=
      modifyValue s1 childId (fun c =>
        { c with
          parent_id := some newParent
          relationships :=
            alistInsert
              (match oldParent with
               | some op => c.relationships.filter (fun r => r.1 ≠ op)
               | none => c.relationships)
              newParent rel })
    modifyValue s2 newParent (fun pn => { pn with children := addChild pn.children childId })

/-- Modelled from the spec: `undo()` pops the most recent command, applies its
inverse and pushes it to the redo stack; on an empty stack it is a no-op that
never fails (spec section 4.3). -/
def MarkdownTree.undo (t : MarkdownTree) : MarkdownTree :=
  match t.undo_stack with
  | [] => t
  | c :: rest =>
    { t with tree := undoCommand t.tree c, undo_stack := rest, redo_stack := c :: t.redo_stack }

/-- Modelled from the spec: `redo()` pops from the redo stack, reapplies the
forward action and pushes back to the undo stack; on an empty stack it is a
no-op that never fails (spec section 4.3). -/
def MarkdownTree.redo (t : MarkdownTree) : MarkdownTree :=
  match t.redo_stack with
  | [] => t
  | c :: rest =>
    { t with tree := redoCommand t.tree c, undo_stack := c :: t.undo_stack, redo_stack := rest }

/-- Modelled from the spec: `find_by_name(query) → id | None` (spec section 4.6)
— `none` on an empty tree or empty query; otherwise first an exact
case-insensitive title match, then a normalized fuzzy match treating `_` and
space as equivalent separators, otherwise `none` with no partial or substring
relaxation. -/
def MarkdownTree.get_node_id_from_name (t : MarkdownTree) (query : String) : Option Nat :=
  if t.tree.isEmpty ∨ query = "" then none
  else
    match t.tree.find? (fun e => lowerStr e.2.title = lowerStr query) with
    | some e => some e.1
    | none =>
      (t.tree.find? (fun e => normalizeName e.2.title = normalizeName query)).map (fun e => e.1)

/-- State of the rate limiter of src/backend/context_ingestion/rate_limiter.py:
`_max_events` and the list `_timestamps` of recorded event times. Times are
embedded as rationals; `time.monotonic()` becomes an explicit `now` argument,
with monotonicity stated as a sortedness hypothesis where needed. -/
structure RateLimiter where
  maxEvents : Nat
  timestamps : List ℚ
deriving DecidableEq, Repr

/-- `RateLimiter.allow` (rate_limiter.py lines 16-31): drop timestamps that are
1.0 second old or older, refuse when at least `_max_events` remain, otherwise
record `now` and accept. -/
def RateLimiter.allow (rl : RateLimiter) (now : ℚ) : Bool × RateLimiter :=
  if rl.maxEvents ≤ (rl.timestamps.filter (fun t => now - t < 1)).length then
    (false, ⟨rl.maxEvents, rl.timestamps.filter (fun t => now - t < 1)⟩)
  else
    (true, ⟨rl.maxEvents, rl.timestamps.filter (fun t => now - t < 1) ++ [now]⟩)

/-- Run a rate limiter over a sequence of call times. -/
def runAllow (rl : RateLimiter) : List ℚ → RateLimiter
  | [] => rl
  | t :: ts => runAllow (rl.allow t).2 ts

/-- The call times of a sequence at which `allow` returned `True`, in order. -/
def allowedTimes (rl : RateLimiter) : List ℚ → List ℚ
  | [] => []
  | t :: ts => (if (rl.allow t).1 then [t] else []) ++ allowedTimes (rl.allow t).2 ts

/-- State of the deduplication window of src/backend/context_ingestion/dedup.py:
`_window_seconds` and the insertion-ordered mapping `_seen` from event key to the
time it was last accepted. -/
structure DeduplicationWindow where
  windowSeconds : ℚ
  seen : List (String × ℚ)
deriving DecidableEq, Repr

/-- `DeduplicationWindow.is_new` (dedup.py lines 16-36): delete entries strictly
older than the window, report a duplicate if the key survives, otherwise record
the key at `now` and accept. -/
def DeduplicationWindow.is_new (d : DeduplicationWindow) (key : String) (now : ℚ) :
    Bool × DeduplicationWindow :=
  if ((d.seen.filter (fun p => now - p.2 ≤ d.windowSeconds)).find? (fun p => p.1 = key)).isSome then
    (false, ⟨d.windowSeconds, d.seen.filter (fun p => now - p.2 ≤ d.windowSeconds)⟩)
  else
    (true, ⟨d.windowSeconds, d.seen.filter (fun p => now - p.2 ≤ d.windowSeconds) ++ [(key, now)]⟩)

/-- Run a deduplication window over a sequence of (key, time) calls. -/
def runDedup (d : DeduplicationWindow) : List (String × ℚ) → DeduplicationWindow
  | [] => d
  | (k, t) :: cs => runDedup (d.is_new k t).2 cs

/-- The (key, time) calls of a sequence for which `is_new` returned `True`, in
order — the accepted occurrences. -/
def acceptedAt (d : DeduplicationWindow) : List (String × ℚ) → List (String × ℚ)
  | [] => []
  | (k, t) :: cs => (if (d.is_new k t).1 then [(k, t)] else []) ++ acceptedAt (d.is_new k t).2 cs

/-- An external mutating operation on a `MarkdownTree` (spec sections 4.1-4.3):
create, update, append, remove, connect, undo, redo. Failing operations
(`NotFound`) leave the tree unchanged in a run. -/
inductive Op where
  | createOp (title : String) (parentId : Option Nat) (content summary rel : String) (st : Bool)
  | updateOp (id : Nat) (newContent newSummary : String) (ts : Nat)
  | appendOp (id : Nat) (text : String)
  | removeOp (id : Nat)
  | connectOp (parentId childId : Nat) (rel : String)
  | undoOp
  | redoOp
deriving DecidableEq, Repr

/-- Apply one operation to a tree (a failing update/append/connect leaves the
tree unchanged). -/
def runOp (t : MarkdownTree) : Op → MarkdownTree
  | .createOp a b c d e f => (t.create_new_node a b c d e f).2
  | .updateOp id c s ts =>
    match t.update_node id c s ts with
    | .ok t2 => t2
    | .error _ => t
  | .appendOp id tx =>
    match t.append_node_content id tx with
    | .ok t2 => t2
    | .error _ => t
  | .removeOp id => (t.remove_node id).2
  | .connectOp p c r =>
    match t.set_parent_child_connection p c r with
    | .ok t2 => t2
    | .error _ => t
  | .undoOp => t.undo
  | .redoOp => t.redo

/-- Run a sequence of operations. -/
def runOps (t : MarkdownTree) : List Op → MarkdownTree
  | [] => t
  | op :: ops => runOps (runOp t op) ops

/-- The ids returned by the create operations of a run, in creation order. -/
def createdIds (t : MarkdownTree) : List Op → List Nat
  | [] => []
  | op :: ops =>
    (match op with
     | .createOp a b c d e f => [(t.create_new_node a b c d e f).1]
     | _ => []) ++ createdIds (runOp t op) ops

/-- The number of create operations in a sequence. -/
def countCreates : List Op → Nat
  | [] => 0
  | .createOp _ _ _ _ _ _ :: ops => countCreates ops + 1
  | _ :: ops => countCreates ops

lemma find?_mapReplace {β : Type} (l : List (Nat × β)) (k : Nat) (v : β) :
    (l.map (fun e => if e.1 = k then (k, v) else e)).find? (fun e => e.1 = k)
      = if l.any (fun e => e.1 = k) then some (k, v) else none := by
  induction l with
  | nil => rfl
  | cons e tl ih =>
    by_cases he : e.1 = k
    · simp [List.find?_cons, he]
    · have hd : decide (e.1 = k) = false := decide_eq_false he
      simp only [List.map_cons, List.any_cons]
      rw [List.find?_cons_of_neg _ (by simp [he]), ih]
      simp only [hd, Bool.false_or]

lemma alistLookup_insert_self {β : Type} (l : List (Nat × β)) (k : Nat) (v : β) :
    alistLookup (alistInsert l k v) k = some v := by
  unfold alistInsert alistLookup
  by_cases h : l.any (fun e => e.1 = k)
  · rw [if_pos h, find?_mapReplace, if_pos h]
    rfl
  · rw [if_neg h, List.find?_append]
    have hnone : l.find? (fun e => decide (e.1 = k)) = none := by
      rw [List.find?_eq_none]
      intro x hx hpx
      exact h (List.any_eq_true.mpr ⟨x, hx, hpx⟩)
    simp [hnone]

/-- C2: For every live node id, `update` appends exactly one entry to that node's
`version_history` holding the pre-update content and summary (with a timestamp)
before replacing them, and leaves `num_appends` unchanged; `append` never appends
a `version_history` entry and increments `num_appends` by exactly 1, with the
appended text becoming part of the content. -/
theorem C2_update_append_history (t : MarkdownTree) (id : Nat) (n : Node)
    (newContent newSummary text : String) (now : Nat)
    (h : alistLookup t.tree id = some n) :
    (∃ t2, t.update_node id newContent newSummary now = .ok t2 ∧
      alistLookup t2.tree id = some
        { n with
          content := newContent
          summary := newSummary
          version_history := n.version_history ++ [⟨n.content, n.summary, now⟩] })
    ∧ (∃ t2, t.append_node_content id text = .ok t2 ∧
      alistLookup t2.tree id = some
        { n with
          content := n.content ++ "\n" ++ text
          num_appends := n.num_appends + 1 }) := by
  constructor
  · simp only [MarkdownTree.update_node, h]
    exact ⟨_, rfl, alistLookup_insert_self _ _ _⟩
  · simp only [MarkdownTree.append_node_content, h]
    exact ⟨_, rfl, alistLookup_insert_self _ _ _⟩

/-- C5: Node creation never fails because of a bad parent reference: for every
`parent_id` argument that does not refer to a live node, `create` still succeeds,
returns the fresh id `next_node_id`, and places the new node as a root with
`parent_id = none`. -/
theorem C5_create_bad_parent_is_root (t : MarkdownTree) (title : String)
    (parentId : Option Nat) (content summary rel : String) (st : Bool)
    (hdead : ∀ p, parentId = some p → alistLookup t.tree p = none) :
    (t.create_new_node title parentId content summary rel st).1 = t.next_node_id
    ∧ (∃ n, alistLookup (t.create_new_node title parentId content summary rel st).2.tree
          t.next_node_id = some n ∧ n.parent_id = none ∧ n.id = t.next_node_id) := by
  cases parentId with
  | none => exact ⟨rfl, _, alistLookup_insert_self _ _ _, rfl, rfl⟩
  | some p =>
    have hp : alistLookup t.tree p = none := hdead p rfl
    refine ⟨rfl, ?_⟩
    simp only [MarkdownTree.create_new_node, hp, Option.isSome_none, Bool.false_eq_true,
      if_false]
    exact ⟨_, alistLookup_insert_self _ _ _, rfl, rfl⟩

/-- C4: `undo()` after a single create removes the created node entirely (its id
is no longer in the tree); a following `redo()` restores the node with the same
id and attributes (here: the whole post-create state); and `undo()` or `redo()`
invoked when its stack is empty is a no-op that never fails. -/
theorem C4_undo_redo_create (title : String) (parentId : Option Nat)
    (content summary rel : String) (st : Bool) :
    (alistLookup
        ((MarkdownTree.empty.create_new_node title parentId content summary rel st).2.undo).tree
        (MarkdownTree.empty.create_new_node title parentId content summary rel st).1 = none)
    ∧ ((MarkdownTree.empty.create_new_node title parentId content summary rel st).2.undo).redo
        = (MarkdownTree.empty.create_new_node title parentId content summary rel st).2
    ∧ (∀ t : MarkdownTree, t.undo_stack = [] → t.undo = t)
    ∧ (∀ t : MarkdownTree, t.redo_stack = [] → t.redo = t) := by
  refine ⟨?_, ?_, fun t ht => ?_, fun t ht => ?_⟩
  · cases parentId <;> rfl
  · cases parentId <;> rfl
  · unfold MarkdownTree.undo
    rw [ht]
  · unfold MarkdownTree.redo
    rw [ht]

theorem C4_undo_redo_create_witness :
    alistLookup
        ((MarkdownTree.empty.create_new_node "a" none "b" "c" "child of" false).2.undo).tree
        (MarkdownTree.empty.create_new_node "a" none "b" "c" "child of" false).1 = none
    ∧ ((MarkdownTree.empty.create_new_node "a" none "b" "c" "child of" false).2.undo).redo
        = (MarkdownTree.empty.create_new_node "a" none "b" "c" "child of" false).2
    ∧ MarkdownTree.empty.undo = MarkdownTree.empty
    ∧ MarkdownTree.empty.redo = MarkdownTree.empty := by
  obtain ⟨h1, h2, h3, h4⟩ := C4_undo_redo_create "a" none "b" "c" "child of" false
  exact ⟨h1, h2, h3 MarkdownTree.empty rfl, h4 MarkdownTree.empty rfl⟩

lemma removeFix_fst (n : Node) (id : Nat) (e : Nat × Node) : (removeFix n id e).1 = e.1 := by
  by_cases h1 : n.parent_id = some e.1
  · by_cases h2 : e.1 ∈ n.children <;> simp [removeFix, h1, h2]
  · by_cases h2 : e.1 ∈ n.children <;> simp [removeFix, h1, h2]

lemma find?_map_keypres (f : Nat × Node → Nat × Node) (hf : ∀ e, (f e).1 = e.1)
    (l : List (Nat × Node)) (k : Nat) :
    (l.map f).find? (fun e => e.1 = k) = (l.find? (fun e => e.1 = k)).map f := by
  induction l with
  | nil => rfl
  | cons e tl ih =>
    by_cases he : e.1 = k
    · rw [List.map_cons, List.find?_cons_of_pos _ (by simp [hf, he]),
        List.find?_cons_of_pos _ (by simp [he])]
      rfl
    · rw [List.map_cons, List.find?_cons_of_neg _ (by simp [hf, he]),
        List.find?_cons_of_neg _ (by simp [he]), ih]

lemma alistLookup_removed_store (l : List (Nat × Node)) (id : Nat) (n : Node) (k : Nat) :
    alistLookup ((l.filter (fun e => e.1 ≠ id)).map (removeFix n id)) k
      = ((l.filter (fun e => e.1 ≠ id)).find? (fun e => e.1 = k)).map
          (fun e => (removeFix n id e).2) := by
  unfold alistLookup
  rw [find?_map_keypres _ (removeFix_fst n id)]
  cases (l.filter (fun e => e.1 ≠ id)).find? (fun e => e.1 = k) <;> rfl

/-- C3: `remove_node(id)` on an id not present in the store returns `false` and
performs no mutation; on a present id it deletes the node from the store, removes
the id from its parent's children set, and sets `parent_id` to `none` for every
direct child of the removed node (dropping the child's parent edge towards the
removed id) — children are orphaned, not cascade-deleted. -/
theorem C3_remove_node (t : MarkdownTree) (id : Nat) :
    (alistLookup t.tree id = none → t.remove_node id = (false, t))
    ∧ (∀ n, alistLookup t.tree id = some n →
        (t.remove_node id).1 = true
        ∧ alistLookup (t.remove_node id).2.tree id = none
        ∧ (∀ p pn2, n.parent_id = some p →
            alistLookup (t.remove_node id).2.tree p = some pn2 → id ∉ pn2.children)
        ∧ (∀ c, c ∈ n.children → c ≠ id →
            ((alistLookup t.tree c).isSome → (alistLookup (t.remove_node id).2.tree c).isSome)
            ∧ (∀ cn2, alistLookup (t.remove_node id).2.tree c = some cn2 →
                cn2.parent_id = none ∧ alistLookup cn2.relationships id = none))) := by
  constructor
  · intro h
    simp only [MarkdownTree.remove_node, h]
  · intro n h
    have htree : (t.remove_node id).2.tree
        = (t.tree.filter (fun e => e.1 ≠ id)).map (removeFix n id) := by
      simp only [MarkdownTree.remove_node, h]
    refine ⟨?_, ?_, ?_, ?_⟩
    · simp only [MarkdownTree.remove_node, h]
    · rw [htree, alistLookup_removed_store]
      have hnone : (t.tree.filter (fun e => e.1 ≠ id)).find? (fun e => e.1 = id) = none := by
        rw [List.find?_eq_none]
        intro x hx hpx
        have hxne : x.1 ≠ id := by simpa using (List.mem_filter.mp hx).2
        exact hxne (by simpa using hpx)
      rw [hnone]
      rfl
    · intro p pn2 hp hfound
      rw [htree, alistLookup_removed_store] at hfound
      cases hf : (t.tree.filter (fun e => e.1 ≠ id)).find? (fun e => e.1 = p) with
      | none => rw [hf] at hfound; exact absurd hfound (by simp)
      | some e =>
        rw [hf] at hfound
        have he1 : e.1 = p := by simpa using List.find?_some hf
        have hpn2 : pn2 = (removeFix n id e).2 := by simpa using hfound.symm
        have hcond : n.parent_id = some e.1 := by rw [he1, hp]
        intro hmem
        have hchildren : id ∈ e.2.children.filter (fun c => c ≠ id) := by
          by_cases hc : e.1 ∈ n.children
          · rw [hpn2] at hmem
            simp [removeFix, hcond, hc] at hmem
          · rw [hpn2] at hmem
            simp [removeFix, hcond, hc] at hmem
        have := (List.mem_filter.mp hchildren).2
        simp at this
    · intro c hc hcne
      constructor
      · intro hsome
        have hex : ∃ e ∈ t.tree, e.1 = c := by
          have hsome2 : (t.tree.find? (fun e => e.1 = c)).isSome := by
            unfold alistLookup at hsome
            cases hfind : t.tree.find? (fun e => e.1 = c) with
            | none => rw [hfind] at hsome; simp at hsome
            | some e => simp
          obtain ⟨e, he, hpe⟩ := List.find?_isSome.mp hsome2
          exact ⟨e, he, by simpa using hpe⟩
        obtain ⟨e, he, he1⟩ := hex
        have hef : e ∈ t.tree.filter (fun e => e.1 ≠ id) :=
          List.mem_filter.mpr ⟨he, by simp [he1, hcne]⟩
        rw [htree, alistLookup_removed_store]
        have : ((t.tree.filter (fun e => e.1 ≠ id)).find? (fun e => e.1 = c)).isSome :=
          List.find?_isSome.mpr ⟨e, hef, by simp [he1]⟩
        cases hfc : (t.tree.filter (fun e => e.1 ≠ id)).find? (fun e => e.1 = c) with
        | none => rw [hfc] at this; simp at this
        | some e2 => rfl
      · intro cn2 hfound
        rw [htree, alistLookup_removed_store] at hfound
        cases hf : (t.tree.filter (fun e => e.1 ≠ id)).find? (fun e => e.1 = c) with
        | none => rw [hf] at hfound; exact absurd hfound (by simp)
        | some e =>
          rw [hf] at hfound
          have he1 : e.1 = c := by simpa using List.find?_some hf
          have hcn2 : cn2 = (removeFix n id e).2 := by simpa using hfound.symm
          have hcmem : e.1 ∈ n.children := by rw [he1]; exact hc
          have hrel : ∀ (m : Node),
              alistLookup (m.relationships.filter (fun r => r.1 ≠ id)) id = none := by
            intro m
            unfold alistLookup
            have : (m.relationships.filter (fun r => r.1 ≠ id)).find? (fun r => r.1 = id)
                = none := by
              rw [List.find?_eq_none]
              intro x hx hpx
              have : x.1 ≠ id := by simpa using (List.mem_filter.mp hx).2
              exact this (by simpa using hpx)
            rw [this]
            rfl
          by_cases h1 : n.parent_id = some e.1
          · rw [hcn2]
            constructor
            · simp [removeFix, h1, hcmem]
            · have : (removeFix n id e).2.relationships
                  = e.2.relationships.filter (fun r => r.1 ≠ id) := by
                simp [removeFix, h1, hcmem]
              rw [this]
              exact hrel e.2
          · rw [hcn2]
            constructor
            · simp [removeFix, h1, hcmem]
            · have : (removeFix n id e).2.relationships
                  = e.2.relationships.filter (fun r => r.1 ≠ id) := by
                simp [removeFix, h1, hcmem]
              rw [this]
              exact hrel e.2

/-- C6: For every tree and query string, `get_node_id_from_name` returns `none`
on an empty tree or an empty query; otherwise it returns the id of a node whose
title matches the query exactly case-insensitively if one exists; failing that,
the id of a node whose title matches after lower-casing and treating underscore
and space as equivalent separators; and otherwise `none`, with no partial or
substring matching below that threshold. -/
theorem C6_get_node_id_from_name (t : MarkdownTree) (q : String) :
    (t.get_node_id_from_name "" = none)
    ∧ (t.tree = [] → t.get_node_id_from_name q = none)
    ∧ (q ≠ "" → (∃ e ∈ t.tree, lowerStr e.2.title = lowerStr q) →
        ∃ e ∈ t.tree, t.get_node_id_from_name q = some e.1 ∧ lowerStr e.2.title = lowerStr q)
    ∧ (q ≠ "" → (∀ e ∈ t.tree, lowerStr e.2.title ≠ lowerStr q) →
        (∃ e ∈ t.tree, normalizeName e.2.title = normalizeName q) →
        ∃ e ∈ t.tree, t.get_node_id_from_name q = some e.1
          ∧ normalizeName e.2.title = normalizeName q)
    ∧ ((∀ e ∈ t.tree,
          lowerStr e.2.title ≠ lowerStr q ∧ normalizeName e.2.title ≠ normalizeName q) →
        t.get_node_id_from_name q = none)
    ∧ (∀ i, t.get_node_id_from_name q = some i →
        ∃ e ∈ t.tree, e.1 = i
          ∧ (lowerStr e.2.title = lowerStr q ∨ normalizeName e.2.title = normalizeName q)) := by
  refine ⟨?_, ?_, ?_, ?_, ?_, ?_⟩
  · simp [MarkdownTree.get_node_id_from_name]
  · intro ht
    simp [MarkdownTree.get_node_id_from_name, ht]
  · intro hq hex
    obtain ⟨e, he, hmatch⟩ := hex
    have hne : ¬(t.tree.isEmpty = true ∨ q = "") := by
      rintro (h1 | h2)
      · rw [List.isEmpty_iff] at h1
        rw [h1] at he
        exact absurd he (List.not_mem_nil e)
      · exact hq h2
    unfold MarkdownTree.get_node_id_from_name
    rw [if_neg hne]
    have hs : ((t.tree.find? (fun e => lowerStr e.2.title = lowerStr q)).isSome) :=
      List.find?_isSome.mpr ⟨e, he, by simp [hmatch]⟩
    cases hf : t.tree.find? (fun e => lowerStr e.2.title = lowerStr q) with
    | none => rw [hf] at hs; simp at hs
    | some e2 =>
      exact ⟨e2, List.mem_of_find?_eq_some hf, rfl, by simpa using List.find?_some hf⟩
  · intro hq hnoex hex
    obtain ⟨e, he, hmatch⟩ := hex
    have hne : ¬(t.tree.isEmpty = true ∨ q = "") := by
      rintro (h1 | h2)
      · rw [List.isEmpty_iff] at h1
        rw [h1] at he
        exact absurd he (List.not_mem_nil e)
      · exact hq h2
    unfold MarkdownTree.get_node_id_from_name
    rw [if_neg hne]
    have hfe : t.tree.find? (fun e => lowerStr e.2.title = lowerStr q) = none := by
      rw [List.find?_eq_none]
      intro x hx hpx
      exact hnoex x hx (by simpa using hpx)
    rw [hfe]
    have hs : ((t.tree.find? (fun e => normalizeName e.2.title = normalizeName q)).isSome) :=
      List.find?_isSome.mpr ⟨e, he, by simp [hmatch]⟩
    cases hf : t.tree.find? (fun e => normalizeName e.2.title = normalizeName q) with
    | none => rw [hf] at hs; simp at hs
    | some e2 =>
      exact ⟨e2, List.mem_of_find?_eq_some hf, rfl, by simpa using List.find?_some hf⟩
  · intro hall
    by_cases hcond : (t.tree.isEmpty = true ∨ q = "")
    · unfold MarkdownTree.get_node_id_from_name
      rw [if_pos hcond]
    · unfold MarkdownTree.get_node_id_from_name
      rw [if_neg hcond]
      have hfe : t.tree.find? (fun e => lowerStr e.2.title = lowerStr q) = none := by
        rw [List.find?_eq_none]
        intro x hx hpx
        exact (hall x hx).1 (by simpa using hpx)
      have hff : t.tree.find? (fun e => normalizeName e.2.title = normalizeName q) = none := by
        rw [List.find?_eq_none]
        intro x hx hpx
        exact (hall x hx).2 (by simpa using hpx)
      rw [hfe, hff]
      rfl
  · intro i hres
    unfold MarkdownTree.get_node_id_from_name at hres
    by_cases hcond : (t.tree.isEmpty = true ∨ q = "")
    · rw [if_pos hcond] at hres
      exact absurd hres (by simp)
    · rw [if_neg hcond] at hres
      cases hf : t.tree.find? (fun e => lowerStr e.2.title = lowerStr q) with
      | some e2 =>
        rw [hf] at hres
        have : e2.1 = i := by simpa using hres
        exact ⟨e2, List.mem_of_find?_eq_some hf, this,
          Or.inl (by simpa using List.find?_some hf)⟩
      | none =>
        rw [hf] at hres
        cases hg : t.tree.find? (fun e => normalizeName e.2.title = normalizeName q) with
        | none => rw [hg] at hres; exact absurd hres (by simp)
        | some e2 =>
          rw [hg] at hres
          have : e2.1 = i := by simpa using hres
          exact ⟨e2, List.mem_of_find?_eq_some hg, this,
            Or.inr (by simpa using List.find?_some hg)⟩

lemma create_next (t : MarkdownTree) (a : String) (b : Option Nat) (c d e : String) (f : Bool) :
    (t.create_new_node a b c d e f).2.next_node_id = t.next_node_id + 1 := by
  cases b <;> rfl

lemma create_fst (t : MarkdownTree) (a : String) (b : Option Nat) (c d e : String) (f : Bool) :
    (t.create_new_node a b c d e f).1 = t.next_node_id := by
  cases b <;> rfl

lemma update_node_next (t : MarkdownTree) (id : Nat) (c s : String) (ts : Nat) (t2 : MarkdownTree)
    (h : t.update_node id c s ts = .ok t2) : t2.next_node_id = t.next_node_id := by
  unfold MarkdownTree.update_node at h
  cases hl : alistLookup t.tree id with
  | none => rw [hl] at h; exact absurd h (by simp)
  | some n =>
    rw [hl] at h
    cases h
    rfl

lemma append_node_next (t : MarkdownTree) (id : Nat) (tx : String) (t2 : MarkdownTree)
    (h : t.append_node_content id tx = .ok t2) : t2.next_node_id = t.next_node_id := by
  unfold MarkdownTree.append_node_content at h
  cases hl : alistLookup t.tree id with
  | none => rw [hl] at h; exact absurd h (by simp)
  | some n =>
    rw [hl] at h
    cases h
    rfl

lemma connect_next (t : MarkdownTree) (p c : Nat) (r : String) (t2 : MarkdownTree)
    (h : t.set_parent_child_connection p c r = .ok t2) : t2.next_node_id = t.next_node_id := by
  unfold MarkdownTree.set_parent_child_connection at h
  cases hl : alistLookup t.tree p with
  | none => rw [hl] at h; exact absurd h (by simp)
  | some pn =>
    cases hl2 : alistLookup t.tree c with
    | none => rw [hl, hl2] at h; exact absurd h (by simp)
    | some cn =>
      rw [hl, hl2] at h
      cases h
      rfl

lemma remove_node_next (t : MarkdownTree) (id : Nat) :
    (t.remove_node id).2.next_node_id = t.next_node_id := by
  unfold MarkdownTree.remove_node
  cases hl : alistLookup t.tree id <;> rfl

lemma undo_next (t : MarkdownTree) : t.undo.next_node_id = t.next_node_id := by
  unfold MarkdownTree.undo
  cases t.undo_stack <;> rfl

lemma redo_next (t : MarkdownTree) : t.redo.next_node_id = t.next_node_id := by
  unfold MarkdownTree.redo
  cases t.redo_stack <;> rfl

lemma runOp_next (t : MarkdownTree) (op : Op) :
    (runOp t op).next_node_id
      = match op with
        | .createOp _ _ _ _ _ _ => t.next_node_id + 1
        | _ => t.next_node_id := by
  cases op with
  | createOp a b c d e f => exact create_next t a b c d e f
  | updateOp id c s ts =>
    show (match t.update_node id c s ts with
      | .ok t2 => t2
      | .error _ => t).next_node_id = t.next_node_id
    cases h : t.update_node id c s ts with
    | ok t2 => exact update_node_next t id c s ts t2 h
    | error e => rfl
  | appendOp id tx =>
    show (match t.append_node_content id tx with
      | .ok t2 => t2
      | .error _ => t).next_node_id = t.next_node_id
    cases h : t.append_node_content id tx with
    | ok t2 => exact append_node_next t id tx t2 h
    | error e => rfl
  | removeOp id => exact remove_node_next t id
  | connectOp p c r =>
    show (match t.set_parent_child_connection p c r with
      | .ok t2 => t2
      | .error _ => t).next_node_id = t.next_node_id
    cases h : t.set_parent_child_connection p c r with
    | ok t2 => exact connect_next t p c r t2 h
    | error e => rfl
  | undoOp => exact undo_next t
  | redoOp => exact redo_next t

lemma createdIds_range (ops : List Op) :
    ∀ t : MarkdownTree, createdIds t ops = List.range' t.next_node_id (countCreates ops) := by
  induction ops with
  | nil => intro t; rfl
  | cons op ops ih =>
    intro t
    cases op with
    | createOp a b c d e f =>
      show [(t.create_new_node a b c d e f).1] ++ createdIds (runOp t (.createOp a b c d e f)) ops
        = List.range' t.next_node_id (countCreates ops + 1)
      rw [ih, runOp_next, create_fst, List.range'_succ]
      rfl
    | updateOp id c s ts =>
      show [] ++ createdIds (runOp t (.updateOp id c s ts)) ops
        = List.range' t.next_node_id (countCreates ops)
      rw [List.nil_append, ih, runOp_next]
    | appendOp id tx =>
      show [] ++ createdIds (runOp t (.appendOp id tx)) ops
        = List.range' t.next_node_id (countCreates ops)
      rw [List.nil_append, ih, runOp_next]
    | removeOp id =>
      show [] ++ createdIds (runOp t (.removeOp id)) ops
        = List.range' t.next_node_id (countCreates ops)
      rw [List.nil_append, ih, runOp_next]
    | connectOp p c r =>
      show [] ++ createdIds (runOp t (.connectOp p c r)) ops
        = List.range' t.next_node_id (countCreates ops)
      rw [List.nil_append, ih, runOp_next]
    | undoOp =>
      show [] ++ createdIds (runOp t .undoOp) ops
        = List.range' t.next_node_id (countCreates ops)
      rw [List.nil_append, ih, runOp_next]
    | redoOp =>
      show [] ++ createdIds (runOp t .redoOp) ops
        = List.range' t.next_node_id (countCreates ops)
      rw [List.nil_append, ih, runOp_next]

/-- C1: For every sequence of operations on a single `MarkdownTree` started from
a fresh tree, node ids are assigned starting at 1 and increase by exactly 1 per
creation, in creation order (the ids handed out by the creates of the run are
exactly `[1, 2, ..., n]`), so an id retired by deletion is never reassigned to a
later-created node; and a freshly constructed tree's next id is 1. -/
theorem C1_node_id_allocation (ops : List Op) :
    createdIds MarkdownTree.empty ops = List.range' 1 (countCreates ops)
    ∧ MarkdownTree.empty.next_node_id = 1 :=
  ⟨createdIds_range ops MarkdownTree.empty, rfl⟩

/-- A one-node sample tree used by witnesses. -/
def tree1 : MarkdownTree :=
  (MarkdownTree.empty.create_new_node "test" none "orig" "sum" "child of" false).2

/-- The node stored in `tree1`. -/
def node1 : Node :=
  ⟨1, "test", "orig", "sum", none, [], [], [], none, false, "test.md", 0, [], none, none⟩

theorem C2_update_append_history_witness :
    (∃ t2, tree1.update_node 1 "replaced" "ns" 5 = .ok t2 ∧
      alistLookup t2.tree 1 = some
        { node1 with
          content := "replaced"
          summary := "ns"
          version_history := node1.version_history ++ [⟨node1.content, node1.summary, 5⟩] })
    ∧ (∃ t2, tree1.append_node_content 1 "extra" = .ok t2 ∧
      alistLookup t2.tree 1 = some
        { node1 with
          content := node1.content ++ "\n" ++ "extra"
          num_appends := node1.num_appends + 1 }) :=
  C2_update_append_history tree1 1 node1 "replaced" "ns" "extra" 5 rfl

theorem C5_create_bad_parent_is_root_witness :
    (tree1.create_new_node "orphan" (some 999) "c" "s" "child of" false).1 = tree1.next_node_id
    ∧ (∃ n, alistLookup
          (tree1.create_new_node "orphan" (some 999) "c" "s" "child of" false).2.tree
          tree1.next_node_id = some n ∧ n.parent_id = none ∧ n.id = tree1.next_node_id) :=
  C5_create_bad_parent_is_root tree1 "orphan" (some 999) "c" "s" "child of" false
    (fun p hp => by cases hp; rfl)

/-- A three-node chain root(1) → mid(2) → child(3) used by the remove witness. -/
def tree3 : MarkdownTree :=
  (((MarkdownTree.empty.create_new_node "root" none "c" "s" "child of" false).2.create_new_node
      "mid" (some 1) "c" "s" "child of" false).2.create_new_node
      "child" (some 2) "c" "s" "child of" false).2

/-- The middle node of `tree3`. -/
def midNode3 : Node :=
  ⟨2, "mid", "c", "s", some 1, [3], [(1, "child of")], [], none, false, "mid.md", 0, [],
    none, none⟩

/-- The root node of `tree3` after `remove_node 2`. -/
def rootAfterRemove : Node :=
  ⟨1, "root", "c", "s", none, [], [], [], none, false, "root.md", 0, [], none, none⟩

/-- The child node of `tree3` after `remove_node 2`. -/
def childAfterRemove : Node :=
  ⟨3, "child", "c", "s", none, [], [], [], none, false, "child.md", 0, [], none, none⟩

theorem C3_remove_node_witness :
    MarkdownTree.empty.remove_node 999 = (false, MarkdownTree.empty)
    ∧ (tree3.remove_node 2).1 = true
    ∧ alistLookup (tree3.remove_node 2).2.tree 2 = none
    ∧ (2 : Nat) ∉ rootAfterRemove.children
    ∧ (alistLookup (tree3.remove_node 2).2.tree 3).isSome
    ∧ childAfterRemove.parent_id = none
    ∧ alistLookup childAfterRemove.relationships 2 = none := by
  have h0 := (C3_remove_node MarkdownTree.empty 999).1 rfl
  have h := (C3_remove_node tree3 2).2 midNode3 rfl
  have hchild := h.2.2.2 3 (by decide) (by decide)
  have hb := hchild.2 childAfterRemove rfl
  exact ⟨h0, h.1, h.2.1, h.2.2.1 1 rootAfterRemove rfl rfl, hchild.1 rfl, hb.1, hb.2⟩

/-- A two-node sample tree used by the name-lookup witness. -/
def tree6 : MarkdownTree :=
  ((MarkdownTree.empty.create_new_node "TestNode" none "c" "s" "child of" false).2.create_new_node
    "architecture_design" none "c" "s" "child of" false).2

/-- The first node of `tree6`. -/
def node6a : Node :=
  ⟨1, "TestNode", "c", "s", none, [], [], [], none, false, "testnode.md", 0, [], none, none⟩

/-- The second node of `tree6`. -/
def node6b : Node :=
  ⟨2, "architecture_design", "c", "s", none, [], [], [], none, false,
    "architecture_design.md", 0, [], none, none⟩

theorem C6_get_node_id_from_name_witness :
    (tree6.get_node_id_from_name "" = none)
    ∧ (MarkdownTree.empty.get_node_id_from_name "anything" = none)
    ∧ (∃ e ∈ tree6.tree, tree6.get_node_id_from_name "testnode" = some e.1
        ∧ lowerStr e.2.title = lowerStr "testnode")
    ∧ (∃ e ∈ tree6.tree, tree6.get_node_id_from_name "architecture design" = some e.1
        ∧ normalizeName e.2.title = normalizeName "architecture design")
    ∧ (tree6.get_node_id_from_name "zzz" = none)
    ∧ (∃ e ∈ tree6.tree, e.1 = 1
        ∧ (lowerStr e.2.title = lowerStr "testnode"
            ∨ normalizeName e.2.title = normalizeName "testnode")) := by
  refine ⟨(C6_get_node_id_from_name tree6 "x").1,
    (C6_get_node_id_from_name MarkdownTree.empty "anything").2.1 rfl,
    (C6_get_node_id_from_name tree6 "testnode").2.2.1 (by decide)
      ⟨(1, node6a), by decide, by decide⟩,
    (C6_get_node_id_from_name tree6 "architecture design").2.2.2.1 (by decide) (by decide)
      ⟨(2, node6b), by decide, by decide⟩,
    (C6_get_node_id_from_name tree6 "zzz").2.2.2.2.1 (by decide),
    (C6_get_node_id_from_name tree6 "testnode").2.2.2.2.2 1 (by decide)⟩

lemma allow_decision (rl : RateLimiter) (now : ℚ) :
    (rl.allow now).1 = true
      ↔ (rl.timestamps.filter (fun u => now - u < 1)).length < rl.maxEvents := by
  unfold RateLimiter.allow
  by_cases hM : rl.maxEvents ≤ (rl.timestamps.filter (fun u => now - u < 1)).length
  · rw [if_pos hM]
    simp
    omega
  · rw [if_neg hM]
    simp
    omega

lemma filter_absorb (S : List ℚ) (t now : ℚ) (h : t ≤ now) :
    (S.filter (fun u => t - u < 1)).filter (fun u => now - u < 1)
      = S.filter (fun u => now - u < 1) := by
  rw [List.filter_filter]
  refine List.filter_congr ?_
  intro u hu
  by_cases hnu : now - u < 1
  · have htu : t - u < 1 := by linarith
    simp [hnu, htu]
  · simp [hnu]

lemma allowedTimes_sublist (ts : List ℚ) : ∀ rl : RateLimiter, (allowedTimes rl ts).Sublist ts := by
  induction ts with
  | nil => intro rl; exact List.Sublist.refl []
  | cons t ts ih =>
    intro rl
    show ((if (rl.allow t).1 then [t] else []) ++ allowedTimes (rl.allow t).2 ts).Sublist (t :: ts)
    by_cases h : (rl.allow t).1
    · rw [if_pos h]
      exact List.Sublist.cons₂ t (ih _)
    · rw [if_neg h]
      simpa using List.Sublist.cons t (ih _)

lemma runAllow_max (ts : List ℚ) : ∀ rl, (runAllow rl ts).maxEvents = rl.maxEvents := by
  induction ts with
  | nil => intro rl; rfl
  | cons t ts ih =>
    intro rl
    show (runAllow (rl.allow t).2 ts).maxEvents = rl.maxEvents
    rw [ih]
    unfold RateLimiter.allow
    by_cases h : rl.maxEvents ≤ (rl.timestamps.filter (fun u => t - u < 1)).length
    · rw [if_pos h]
    · rw [if_neg h]

lemma runAllow_filter (ts : List ℚ) :
    ∀ (m : Nat) (S : List ℚ) (now : ℚ), List.Pairwise (· ≤ ·) (ts ++ [now]) →
      (runAllow ⟨m, S⟩ ts).timestamps.filter (fun u => now - u < 1)
        = (S ++ allowedTimes ⟨m, S⟩ ts).filter (fun u => now - u < 1) := by
  induction ts with
  | nil =>
    intro m S now _
    simp [runAllow, allowedTimes]
  | cons t ts ih =>
    intro m S now hsort
    have hsort2 : List.Pairwise (· ≤ ·) (ts ++ [now]) := (List.pairwise_cons.mp hsort).2
    have htnow : t ≤ now :=
      (List.pairwise_cons.mp hsort).1 now (List.mem_append_right ts (by simp))
    show (runAllow ((⟨m, S⟩ : RateLimiter).allow t).2 ts).timestamps.filter (fun u => now - u < 1)
      = (S ++ ((if ((⟨m, S⟩ : RateLimiter).allow t).1 then [t] else [])
          ++ allowedTimes ((⟨m, S⟩ : RateLimiter).allow t).2 ts)).filter (fun u => now - u < 1)
    unfold RateLimiter.allow
    by_cases hM : m ≤ (S.filter (fun u => t - u < 1)).length
    · rw [if_pos hM, ih m _ now hsort2]
      simp only [List.filter_append, filter_absorb S t now htnow]
      simp
    · rw [if_neg hM, ih m _ now hsort2]
      simp only [List.filter_append, filter_absorb S t now htnow]
      simp [List.filter_append]

lemma allow_dec (ts : List ℚ) :
    ∀ (m : Nat) (S B : List ℚ) (v : ℚ) (C : List ℚ),
      List.Pairwise (· ≤ ·) (S ++ ts) →
      allowedTimes ⟨m, S⟩ ts = B ++ v :: C →
      ((S ++ B).filter (fun u => v - u < 1)).length < m := by
  induction ts with
  | nil =>
    intro m S B v C _ heq
    simp [allowedTimes] at heq
  | cons t ts ih =>
    intro m S B v C hsort heq
    have hparts := List.pairwise_append.mp hsort
    have ht_all : ∀ b ∈ ts, t ≤ b := (List.pairwise_cons.mp hparts.2.1).1
    have heq' : (if ((⟨m, S⟩ : RateLimiter).allow t).1 = true then [t] else [])
        ++ allowedTimes ((⟨m, S⟩ : RateLimiter).allow t).2 ts = B ++ v :: C := heq
    unfold RateLimiter.allow at heq'
    by_cases hM : m ≤ (S.filter (fun u => t - u < 1)).length
    · rw [if_pos hM] at heq'
      simp only [Bool.false_eq_true, if_false, List.nil_append] at heq'
      have hvts : v ∈ ts := by
        have hvmem : v ∈ allowedTimes ⟨m, S.filter (fun u => t - u < 1)⟩ ts := by
          rw [heq']
          exact List.mem_append_right B (List.mem_cons_self v C)
        exact (allowedTimes_sublist ts _).subset hvmem
      have htv : t ≤ v := ht_all v hvts
      have hpair : List.Pairwise (· ≤ ·) ((S.filter (fun u => t - u < 1)) ++ ts) :=
        List.Pairwise.sublist
          (List.Sublist.append (List.filter_sublist S) (List.sublist_cons_self t ts)) hsort
      have hIH := ih m (S.filter (fun u => t - u < 1)) B v C hpair heq'
      rw [List.filter_append] at hIH ⊢
      rw [← filter_absorb S t v htv]
      exact hIH
    · rw [if_neg hM] at heq'
      simp only [if_true] at heq'
      cases B with
      | nil =>
        simp only [List.nil_append] at heq'
        have hv : v = t := (List.cons.injEq _ _ _ _ ▸ heq').1.symm
        subst hv
        simp only [List.nil_append, List.append_nil]
        omega
      | cons b B2 =>
        simp only [List.cons_append] at heq'
        have hbt : t = b := (List.cons.injEq _ _ _ _ ▸ heq').1
        have htail : allowedTimes ⟨m, S.filter (fun u => t - u < 1) ++ [t]⟩ ts
            = B2 ++ v :: C := (List.cons.injEq _ _ _ _ ▸ heq').2
        have hvts : v ∈ ts := by
          have hvmem : v ∈ allowedTimes ⟨m, S.filter (fun u => t - u < 1) ++ [t]⟩ ts := by
            rw [htail]
            exact List.mem_append_right B2 (List.mem_cons_self v C)
          exact (allowedTimes_sublist ts _).subset hvmem
        have htv : t ≤ v := ht_all v hvts
        have hpair : List.Pairwise (· ≤ ·)
            ((S.filter (fun u => t - u < 1) ++ [t]) ++ ts) := by
          rw [List.append_assoc, List.singleton_append]
          exact List.Pairwise.sublist
            (List.Sublist.append_right (List.filter_sublist S) (t :: ts)) hsort
        have hIH := ih m (S.filter (fun u => t - u < 1) ++ [t]) B2 v C hpair htail
        subst hbt
        rw [List.filter_append, List.filter_append] at hIH
        rw [List.filter_append, show (t :: B2) = [t] ++ B2 from rfl, List.filter_append,
          ← filter_absorb S t v htv]
        simp only [List.length_append] at hIH ⊢
        omega

lemma allow_window_bound (m : Nat) (ts : List ℚ) (hsort : List.Pairwise (· ≤ ·) ts) (a : ℚ) :
    ((allowedTimes ⟨m, []⟩ ts).filter (fun u => a ≤ u ∧ u < a + 1)).length ≤ m := by
  by_contra hcon
  push_neg at hcon
  have hA_sub : (allowedTimes ⟨m, []⟩ ts).Sublist ts := allowedTimes_sublist ts _
  have hW_subA : ((allowedTimes ⟨m, []⟩ ts).filter
      (fun u => a ≤ u ∧ u < a + 1)).Sublist (allowedTimes ⟨m, []⟩ ts) :=
    List.filter_sublist _
  have hW_sorted : List.Pairwise (· ≤ ·)
      ((allowedTimes ⟨m, []⟩ ts).filter (fun u => a ≤ u ∧ u < a + 1)) :=
    List.Pairwise.sublist (hW_subA.trans hA_sub) hsort
  set W := (allowedTimes ⟨m, []⟩ ts).filter (fun u => a ≤ u ∧ u < a + 1) with hW
  have hlen : m < W.length := hcon
  have hdropne : W.drop m ≠ [] := by
    intro h
    rw [List.drop_eq_nil_iff] at h
    omega
  obtain ⟨v, W2, hdrop⟩ := List.exists_cons_of_ne_nil hdropne
  have hWsplit : W = W.take m ++ v :: W2 := by
    conv_lhs => rw [← List.take_append_drop m W]
    rw [hdrop]
  have hsubl : (W.take m ++ v :: W2).Sublist (allowedTimes ⟨m, []⟩ ts) := by
    rw [← hWsplit]
    exact hW_subA
  obtain ⟨r1, r2, hAr, htake_sub, hvW2_sub⟩ := List.append_sublist_iff.mp hsubl
  obtain ⟨s1, s2, hr2, hv_mem, hW2_sub⟩ := List.cons_sublist_iff.mp hvW2_sub
  obtain ⟨p, qq, hs1⟩ := List.append_of_mem hv_mem
  have hAeq : allowedTimes ⟨m, []⟩ ts = (r1 ++ p) ++ v :: (qq ++ s2) := by
    rw [hAr, hr2, hs1]
    simp [List.append_assoc]
  have hdec := allow_dec ts m [] (r1 ++ p) v (qq ++ s2) (by simpa using hsort) hAeq
  have hv_inW : v ∈ W := by
    rw [hWsplit]
    exact List.mem_append_right _ (List.mem_cons_self v W2)
  have hv_window : a ≤ v ∧ v < a + 1 := by
    rw [hW] at hv_inW
    simpa using (List.mem_filter.mp hv_inW).2
  have htake_window : ∀ u ∈ W.take m, a ≤ u ∧ u < a + 1 := by
    intro u hu
    have huW : u ∈ W := by
      rw [hWsplit]
      exact List.mem_append_left _ hu
    rw [hW] at huW
    simpa using (List.mem_filter.mp huW).2
  have htake_fresh : ∀ u ∈ W.take m, (decide (v - u < 1)) = true := by
    intro u hu
    obtain ⟨hau, hua⟩ := htake_window u hu
    have hfresh : v - u < 1 := by linarith [hv_window.2]
    simpa using hfresh
  have htake_eq : (W.take m).filter (fun u => v - u < 1) = W.take m :=
    List.filter_eq_self.mpr htake_fresh
  have hsub2 : (W.take m).Sublist ((r1 ++ p).filter (fun u => v - u < 1)) := by
    have h3 : (W.take m).Sublist (r1 ++ p) :=
      htake_sub.trans (List.sublist_append_left r1 p)
    have := List.Sublist.filter (fun u => decide (v - u < 1)) h3
    rw [htake_eq] at this
    exact this
  have hlen_take : (W.take m).length = m := by
    rw [List.length_take, Nat.min_eq_left (le_of_lt hlen)]
  have hge : m ≤ ((r1 ++ p).filter (fun u => v - u < 1)).length := by
    have := hsub2.length_le
    rw [hlen_take] at this
    exact this
  rw [List.nil_append] at hdec
  omega

/-- C7: `RateLimiter.allow()` implements a rolling one-second window of fixed
capacity: starting from a fresh limiter and with monotone call times, a call
returns `True` (and records the event) if and only if strictly fewer than
`max_events_per_second` previously allowed events have timestamps strictly less
than 1.0 second old at the time of the call; consequently at most
`max_events_per_second` calls return `True` within any one-second span
`[a, a+1)`; and with `max_events_per_second = 0` no call ever returns `True`. -/
theorem C7_rate_limiter (m : Nat) (ts : List ℚ) (now : ℚ)
    (hsort : List.Pairwise (· ≤ ·) (ts ++ [now])) :
    (((runAllow ⟨m, []⟩ ts).allow now).1 = true ↔
        ((allowedTimes ⟨m, []⟩ ts).filter (fun u => now - u < 1)).length < m)
    ∧ (((runAllow ⟨m, []⟩ ts).allow now).1 = true →
        now ∈ ((runAllow ⟨m, []⟩ ts).allow now).2.timestamps)
    ∧ (∀ a : ℚ, ((allowedTimes ⟨m, []⟩ ts).filter (fun u => a ≤ u ∧ u < a + 1)).length ≤ m)
    ∧ (m = 0 → ((runAllow ⟨m, []⟩ ts).allow now).1 = false) := by
  have hmax : (runAllow ⟨m, []⟩ ts).maxEvents = m := runAllow_max ts _
  have hfil : (runAllow ⟨m, []⟩ ts).timestamps.filter (fun u => now - u < 1)
      = (allowedTimes ⟨m, []⟩ ts).filter (fun u => now - u < 1) := by
    have := runAllow_filter ts m [] now hsort
    simpa using this
  refine ⟨?_, ?_, ?_, ?_⟩
  · rw [allow_decision, hmax, hfil]
  · intro hdec
    unfold RateLimiter.allow at hdec ⊢
    by_cases hM : (runAllow ⟨m, []⟩ ts).maxEvents
        ≤ ((runAllow ⟨m, []⟩ ts).timestamps.filter (fun u => now - u < 1)).length
    · rw [if_pos hM] at hdec
      simp at hdec
    · rw [if_neg hM]
      simp
  · intro a
    exact allow_window_bound m ts
      (List.Pairwise.sublist (List.sublist_append_left ts [now]) hsort) a
  · intro hm
    subst hm
    unfold RateLimiter.allow
    rw [if_pos (by rw [hmax]; exact Nat.zero_le _)]

theorem C7_rate_limiter_witness :
    List.Pairwise (· ≤ ·) ([0, 1] ++ [(1 : ℚ)])
    ∧ (((runAllow ⟨2, []⟩ [0, 1]).allow 1).1 = true ↔
        ((allowedTimes ⟨2, []⟩ [0, 1]).filter (fun u => (1 : ℚ) - u < 1)).length < 2)
    ∧ (((runAllow ⟨2, []⟩ [0, 1]).allow 1).1 = true →
        (1 : ℚ) ∈ ((runAllow ⟨2, []⟩ [0, 1]).allow 1).2.timestamps)
    ∧ ((allowedTimes ⟨2, []⟩ [0, 1]).filter (fun u => (0 : ℚ) ≤ u ∧ u < 0 + 1)).length ≤ 2
    ∧ ((runAllow ⟨0, []⟩ [0, 1]).allow 1).1 = false := by
  have h := C7_rate_limiter 2 [0, 1] 1 (by decide)
  have h0 := C7_rate_limiter 0 [0, 1] 1 (by decide)
  exact ⟨by decide, h.1, h.2.1, h.2.2.1 0, h0.2.2.2 rfl⟩

lemma acceptedAt_sublist (cs : List (String × ℚ)) :
    ∀ d : DeduplicationWindow, (acceptedAt d cs).Sublist cs := by
  induction cs with
  | nil => intro d; exact List.Sublist.refl []
  | cons p cs ih =>
    intro d
    obtain ⟨k, t⟩ := p
    show ((if (d.is_new k t).1 then [(k, t)] else []) ++ acceptedAt (d.is_new k t).2 cs).Sublist
      ((k, t) :: cs)
    by_cases h : (d.is_new k t).1
    · rw [if_pos h]
      exact List.Sublist.cons₂ (k, t) (ih _)
    · rw [if_neg h]
      simpa using List.Sublist.cons (k, t) (ih _)

lemma dedup_absorb (S : List (String × ℚ)) (t now w : ℚ) (h : t ≤ now) :
    (S.filter (fun p => t - p.2 ≤ w)).filter (fun p => now - p.2 ≤ w)
      = S.filter (fun p => now - p.2 ≤ w) := by
  rw [List.filter_filter]
  refine List.filter_congr ?_
  intro u hu
  by_cases hnu : now - u.2 ≤ w
  · have htu : t - u.2 ≤ w := by linarith
    simp [hnu, htu]
  · simp [hnu]

lemma runDedup_window (cs : List (String × ℚ)) :
    ∀ d : DeduplicationWindow, (runDedup d cs).windowSeconds = d.windowSeconds := by
  induction cs with
  | nil => intro d; rfl
  | cons p cs ih =>
    intro d
    obtain ⟨k, t⟩ := p
    show (runDedup (d.is_new k t).2 cs).windowSeconds = d.windowSeconds
    rw [ih]
    unfold DeduplicationWindow.is_new
    by_cases h : ((d.seen.filter (fun p => t - p.2 ≤ d.windowSeconds)).find?
        (fun p => p.1 = k)).isSome
    · rw [if_pos h]
    · rw [if_neg h]

lemma runDedup_filter (cs : List (String × ℚ)) :
    ∀ (w : ℚ) (S : List (String × ℚ)) (now : ℚ),
      List.Pairwise (· ≤ ·) (cs.map (fun p => p.2) ++ [now]) →
      (runDedup ⟨w, S⟩ cs).seen.filter (fun p => now - p.2 ≤ w)
        = (S ++ acceptedAt ⟨w, S⟩ cs).filter (fun p => now - p.2 ≤ w) := by
  induction cs with
  | nil =>
    intro w S now _
    simp [runDedup, acceptedAt]
  | cons q cs ih =>
    intro w S now hsort
    obtain ⟨k, t⟩ := q
    rw [List.map_cons] at hsort
    have hsort2 : List.Pairwise (· ≤ ·) (cs.map (fun p => p.2) ++ [now]) :=
      (List.pairwise_cons.mp hsort).2
    have htnow : t ≤ now :=
      (List.pairwise_cons.mp hsort).1 now (List.mem_append_right _ (by simp))
    show (runDedup ((⟨w, S⟩ : DeduplicationWindow).is_new k t).2 cs).seen.filter
        (fun p => now - p.2 ≤ w)
      = (S ++ ((if ((⟨w, S⟩ : DeduplicationWindow).is_new k t).1 then [(k, t)] else [])
          ++ acceptedAt ((⟨w, S⟩ : DeduplicationWindow).is_new k t).2 cs)).filter
          (fun p => now - p.2 ≤ w)
    unfold DeduplicationWindow.is_new
    by_cases hK : ((S.filter (fun p => t - p.2 ≤ w)).find? (fun p => p.1 = k)).isSome
    · rw [if_pos hK, ih w _ now hsort2]
      simp only [List.filter_append, dedup_absorb S t now w htnow]
      simp
    · rw [if_neg hK, ih w _ now hsort2]
      simp only [List.filter_append, dedup_absorb S t now w htnow]
      simp [List.filter_append]

lemma is_new_decision (d : DeduplicationWindow) (k : String) (now : ℚ) :
    (d.is_new k now).1 = true
      ↔ ((d.seen.filter (fun p => now - p.2 ≤ d.windowSeconds)).find?
          (fun p => p.1 = k)) = none := by
  unfold DeduplicationWindow.is_new
  by_cases h : ((d.seen.filter (fun p => now - p.2 ≤ d.windowSeconds)).find?
      (fun p => p.1 = k)).isSome
  · rw [if_pos h]
    simp only [Bool.false_eq_true, false_iff]
    exact Option.isSome_iff_ne_none.mp h
  · rw [if_neg h]
    simp only [true_iff]
    exact Option.not_isSome_iff_eq_none.mp h

lemma runDedup_decision_iff (cs : List (String × ℚ)) (w : ℚ) (k : String) (now : ℚ)
    (hsort : List.Pairwise (· ≤ ·) (cs.map (fun p => p.2) ++ [now])) :
    (((runDedup ⟨w, []⟩ cs).is_new k now).1 = true
      ↔ ∀ p ∈ acceptedAt ⟨w, []⟩ cs, p.1 = k → w < now - p.2) := by
  rw [is_new_decision]
  simp only [runDedup_window]
  rw [runDedup_filter cs w [] now hsort]
  simp only [List.nil_append]
  rw [List.find?_eq_none]
  constructor
  · intro h p hp hk
    by_contra hnot
    push_neg at hnot
    have hpf : p ∈ (acceptedAt ⟨w, []⟩ cs).filter (fun p => now - p.2 ≤ w) :=
      List.mem_filter.mpr ⟨hp, by simpa using hnot⟩
    exact (h p hpf) (by simpa using hk)
  · intro h p hp
    obtain ⟨hmem, hfresh⟩ := List.mem_filter.mp hp
    intro hpk
    have hk : p.1 = k := by simpa using hpk
    have := h p hmem hk
    have hfr : now - p.2 ≤ w := by simpa using hfresh
    linarith

lemma runDedup_append (xs ys : List (String × ℚ)) :
    ∀ d, runDedup d (xs ++ ys) = runDedup (runDedup d xs) ys := by
  induction xs with
  | nil => intro d; rfl
  | cons p xs ih =>
    intro d
    obtain ⟨k, t⟩ := p
    show runDedup (d.is_new k t).2 (xs ++ ys) = runDedup (runDedup (d.is_new k t).2 xs) ys
    exact ih _

lemma acceptedAt_append (xs ys : List (String × ℚ)) :
    ∀ d, acceptedAt d (xs ++ ys) = acceptedAt d xs ++ acceptedAt (runDedup d xs) ys := by
  induction xs with
  | nil => intro d; rfl
  | cons p xs ih =>
    intro d
    obtain ⟨k, t⟩ := p
    show (if (d.is_new k t).1 then [(k, t)] else []) ++ acceptedAt (d.is_new k t).2 (xs ++ ys)
      = ((if (d.is_new k t).1 then [(k, t)] else []) ++ acceptedAt (d.is_new k t).2 xs)
        ++ acceptedAt (runDedup (d.is_new k t).2 xs) ys
    rw [ih, List.append_assoc]

lemma find?_key_filter (S : List (String × ℚ)) (k : String) (kt : String × ℚ)
    (pred : String × ℚ → Bool)
    (hfind : S.find? (fun p => p.1 = k) = some kt) (hkeep : pred kt = true) :
    (S.filter pred).find? (fun p => p.1 = k) = some kt := by
  induction S with
  | nil => simp at hfind
  | cons e S ih =>
    by_cases he : e.1 = k
    · rw [List.find?_cons_of_pos _ (by simpa using he)] at hfind
      have hekt : e = kt := by simpa using hfind
      subst hekt
      rw [List.filter_cons, if_pos hkeep]
      exact List.find?_cons_of_pos _ (by simpa using he)
    · rw [List.find?_cons_of_neg _ (by simpa using he)] at hfind
      rw [List.filter_cons]
      by_cases hp : pred e = true
      · rw [if_pos hp, List.find?_cons_of_neg _ (by simpa using he)]
        exact ih hfind
      · rw [if_neg hp]
        exact ih hfind

lemma find?_append_some {α : Type} (p : α → Bool) (l1 l2 : List α) (a : α)
    (h : l1.find? p = some a) : (l1 ++ l2).find? p = some a := by
  rw [List.find?_append, h]
  rfl

lemma is_new_window (d : DeduplicationWindow) (k : String) (t : ℚ) :
    (d.is_new k t).2.windowSeconds = d.windowSeconds := by
  unfold DeduplicationWindow.is_new
  split <;> rfl

lemma is_new_true_find (d : DeduplicationWindow) (k : String) (t : ℚ)
    (h : (d.is_new k t).1 = true) :
    (d.is_new k t).2.seen.find? (fun p => p.1 = k) = some (k, t) := by
  unfold DeduplicationWindow.is_new at h ⊢
  by_cases hK : ((d.seen.filter (fun p => t - p.2 ≤ d.windowSeconds)).find?
      (fun p => p.1 = k)).isSome
  · rw [if_pos hK] at h
    simp at h
  · rw [if_neg hK]
    show ((d.seen.filter (fun p => t - p.2 ≤ d.windowSeconds) ++ [(k, t)]).find?
      (fun p => p.1 = k)) = some (k, t)
    rw [List.find?_append, Option.not_isSome_iff_eq_none.mp hK]
    simp

lemma dedup_noacc (cs : List (String × ℚ)) :
    ∀ (d : DeduplicationWindow) (k : String) (t : ℚ),
      d.seen.find? (fun p => p.1 = k) = some (k, t) →
      List.Pairwise (· ≤ ·) (cs.map (fun p => p.2)) →
      (∀ p ∈ cs, p.1 = k → p.2 - t ≤ d.windowSeconds) →
      ∀ p ∈ acceptedAt d cs, p.1 ≠ k := by
  induction cs with
  | nil =>
    intro d k t _ _ _ p hp
    simp [acceptedAt] at hp
  | cons q cs ih =>
    intro d k t hfind hsort hbnd p hp
    obtain ⟨k2, u⟩ := q
    rw [List.map_cons] at hsort
    have hsort2 := (List.pairwise_cons.mp hsort).2
    have hu_le : ∀ b ∈ cs.map (fun p => p.2), u ≤ b := (List.pairwise_cons.mp hsort).1
    by_cases hout : u - t ≤ d.windowSeconds
    · have hkept : ((d.seen.filter (fun p => u - p.2 ≤ d.windowSeconds)).find?
          (fun p => p.1 = k)) = some (k, t) :=
        find?_key_filter _ _ _ _ hfind (by simpa using hout)
      have hp2 : p ∈ (if (d.is_new k2 u).1 then [(k2, u)] else [])
          ++ acceptedAt (d.is_new k2 u).2 cs := hp
      unfold DeduplicationWindow.is_new at hp2
      by_cases hK : ((d.seen.filter (fun p => u - p.2 ≤ d.windowSeconds)).find?
          (fun p => p.1 = k2)).isSome
      · rw [if_pos hK] at hp2
        simp only [Bool.false_eq_true, if_false, List.nil_append] at hp2
        refine ih _ k t hkept hsort2 ?_ p hp2
        intro q hq hqk
        exact hbnd q (List.mem_cons_of_mem _ hq) hqk
      · rw [if_neg hK] at hp2
        simp only [if_true, List.singleton_append] at hp2
        have hk2 : k2 ≠ k := by
          intro he
          subst he
          rw [hkept] at hK
          simp at hK
        rcases List.mem_cons.mp hp2 with h1 | h2
        · intro hpk
          rw [h1] at hpk
          exact hk2 hpk
        · refine ih _ k t ?_ hsort2 ?_ p h2
          · exact find?_append_some _ _ _ _ hkept
          · intro q hq hqk
            exact hbnd q (List.mem_cons_of_mem _ hq) hqk
    · intro hpk
      have hmem : p ∈ (k2, u) :: cs := (acceptedAt_sublist _ d).subset hp
      rcases List.mem_cons.mp hmem with h1 | h2
      · have : k2 = k := by rw [h1] at hpk; exact hpk
        subst this
        exact hout (hbnd (k2, u) (List.mem_cons_self _ _) rfl)
      · have hle : u ≤ p.2 := hu_le p.2 (List.mem_map_of_mem _ h2)
        have hb := hbnd p (List.mem_cons_of_mem _ h2) hpk
        exact hout (by linarith)

lemma dedup_first_after_window (calls1 calls2 : List (String × ℚ)) (k : String) (t now w : ℚ)
    (hsort : List.Pairwise (· ≤ ·)
      (calls1.map (fun p => p.2) ++ t :: (calls2.map (fun p => p.2) ++ [now])))
    (hacc : ((runDedup ⟨w, []⟩ calls1).is_new k t).1 = true)
    (hin : ∀ p ∈ calls2, p.1 = k → p.2 - t ≤ w)
    (hafter : w < now - t) :
    ((runDedup ⟨w, []⟩ (calls1 ++ (k, t) :: calls2)).is_new k now).1 = true := by
  have hsort_full : List.Pairwise (· ≤ ·)
      ((calls1 ++ (k, t) :: calls2).map (fun p => p.2) ++ [now]) := by
    simpa [List.map_append, List.map_cons, List.append_assoc] using hsort
  have hparts := List.pairwise_append.mp hsort
  have htcons := List.pairwise_cons.mp hparts.2.1
  have htnow : t ≤ now := htcons.1 now (List.mem_append_right _ (by simp))
  rw [runDedup_decision_iff _ w k now hsort_full]
  intro p hp hpk
  rw [acceptedAt_append] at hp
  rcases List.mem_append.mp hp with h1 | h2
  · have hsort1 : List.Pairwise (· ≤ ·) (calls1.map (fun p => p.2) ++ [t]) :=
      List.Pairwise.sublist
        (List.Sublist.append_left
          (List.Sublist.cons₂ t (List.nil_sublist _)) (calls1.map (fun p => p.2))) hsort
    have hpre := (runDedup_decision_iff calls1 w k t hsort1).mp hacc p h1 hpk
    linarith
  · have hfirst : acceptedAt (runDedup ⟨w, []⟩ calls1) ((k, t) :: calls2)
        = [(k, t)] ++ acceptedAt ((runDedup ⟨w, []⟩ calls1).is_new k t).2 calls2 := by
      show (if ((runDedup ⟨w, []⟩ calls1).is_new k t).1 then [(k, t)] else []) ++ _ = _
      rw [if_pos hacc]
    rw [hfirst] at h2
    rcases List.mem_append.mp h2 with h3 | h4
    · have hpe : p = (k, t) := by simpa using h3
      rw [hpe]
      simpa using hafter
    · exfalso
      have hw2 : ((runDedup ⟨w, []⟩ calls1).is_new k t).2.windowSeconds = w := by
        rw [is_new_window, runDedup_window]
      have hfind : ((runDedup ⟨w, []⟩ calls1).is_new k t).2.seen.find?
          (fun p => p.1 = k) = some (k, t) := is_new_true_find _ k t hacc
      have hsortc2 : List.Pairwise (· ≤ ·) (calls2.map (fun p => p.2)) := by
        refine List.Pairwise.sublist ?_ hparts.2.1
        refine List.Sublist.trans (List.sublist_append_left _ [now]) ?_
        exact List.sublist_cons_self t _
      have hnoacc := dedup_noacc calls2 ((runDedup ⟨w, []⟩ calls1).is_new k t).2 k t hfind
        hsortc2 (fun q hq hqk => by rw [hw2]; exact hin q hq hqk) p h4
      exact hnoacc hpk

/-- C8: `DeduplicationWindow.is_new(key)` (from a fresh window, with monotone
call times) returns `True` exactly when the key has no accepted occurrence
within the last `window_seconds`, and then records the key at the call time;
once `is_new(k)` has returned `True` at time `t`, every later call at `t2` with
`t2 - t ≤ window_seconds` returns `False`; and the first call strictly more than
`window_seconds` after `t` (all interim duplicates falling inside the window)
returns `True` again. -/
theorem C8_dedup_window (w : ℚ) (k : String) (now : ℚ) :
    (∀ cs, List.Pairwise (· ≤ ·) (cs.map (fun p => p.2) ++ [now]) →
      ((((runDedup ⟨w, []⟩ cs).is_new k now).1 = true
          ↔ ∀ p ∈ acceptedAt ⟨w, []⟩ cs, p.1 = k → w < now - p.2)
        ∧ (((runDedup ⟨w, []⟩ cs).is_new k now).1 = true →
            ((runDedup ⟨w, []⟩ cs).is_new k now).2.seen.find? (fun p => p.1 = k)
              = some (k, now))))
    ∧ (∀ cs t, List.Pairwise (· ≤ ·) (cs.map (fun p => p.2) ++ [now]) →
        (k, t) ∈ acceptedAt ⟨w, []⟩ cs → now - t ≤ w →
        ((runDedup ⟨w, []⟩ cs).is_new k now).1 = false)
    ∧ (∀ calls1 calls2 t, List.Pairwise (· ≤ ·)
          (calls1.map (fun p => p.2) ++ t :: (calls2.map (fun p => p.2) ++ [now])) →
        ((runDedup ⟨w, []⟩ calls1).is_new k t).1 = true →
        (∀ p ∈ calls2, p.1 = k → p.2 - t ≤ w) →
        w < now - t →
        ((runDedup ⟨w, []⟩ (calls1 ++ (k, t) :: calls2)).is_new k now).1 = true) := by
  refine ⟨fun cs hsort => ⟨runDedup_decision_iff cs w k now hsort, ?_⟩,
    fun cs t hsort hacc hclose => ?_, fun c1 c2 t hs ha hi hw => ?_⟩
  · intro hdec
    exact is_new_true_find _ k now hdec
  · cases hval : ((runDedup ⟨w, []⟩ cs).is_new k now).1 with
    | false => rfl
    | true =>
      exfalso
      have := (runDedup_decision_iff cs w k now hsort).mp hval (k, t) hacc rfl
      simp at this
      linarith
  · exact dedup_first_after_window c1 c2 k t now w hs ha hi hw

theorem C8_dedup_window_witness :
    ((((runDedup ⟨5, []⟩ [("k", 1)]).is_new "k" 3).1 = true
        ↔ ∀ p ∈ acceptedAt ⟨(5 : ℚ), []⟩ [("k", 1)], p.1 = "k" → (5 : ℚ) < 3 - p.2)
      ∧ (((runDedup ⟨5, []⟩ [("k", 1)]).is_new "k" 3).1 = true →
          ((runDedup ⟨5, []⟩ [("k", 1)]).is_new "k" 3).2.seen.find? (fun p => p.1 = "k")
            = some ("k", 3)))
    ∧ ((runDedup ⟨5, []⟩ [("k", 1)]).is_new "k" 3).1 = false
    ∧ ((runDedup ⟨5, []⟩ ([] ++ ("k", 1) :: [("k", 2)])).is_new "k" 7).1 = true := by
  have h := C8_dedup_window 5 "k" 3
  have h7 := C8_dedup_window 5 "k" 7
  refine ⟨h.1 [("k", 1)] (by decide), ?_, ?_⟩
  · exact h.2.1 [("k", 1)] 1 (by decide) (List.mem_singleton.mpr rfl) (by norm_num)
  · refine h7.2.2 [] [("k", 2)] 1 (by decide) rfl ?_ (by norm_num)
    intro p hp _
    have hpe : p = ("k", 2) := by simpa using hp
    rw [hpe]
    norm_num

/-- C9 counterexample: the gates are not history-independent — the empty history
and a one-event history followed by the same next event yield different
decisions, for the deduplication window and for the rate limiter alike. -/
theorem C9_not_stateless_counterexample :
    (((runDedup ⟨5, []⟩ []).is_new "k" 1).1 = true
      ∧ ((runDedup ⟨5, []⟩ [("k", 0)]).is_new "k" 1).1 = false)
    ∧ (((runAllow ⟨1, []⟩ []).allow 0).1 = true
      ∧ ((runAllow ⟨1, []⟩ [0]).allow 0).1 = false) := by
  refine ⟨⟨rfl, ?_⟩, rfl, ?_⟩
  · have e1 : ((1 : ℚ) - 0 ≤ 5) := by norm_num
    simp [runDedup, DeduplicationWindow.is_new, List.filter_cons, e1]
  · have e2 : ((0 : ℚ) - 0 < 1) := by norm_num
    simp [runAllow, RateLimiter.allow, List.filter_cons, e2]

lemma runDedup_eta (cs : List (String × ℚ)) (w : ℚ) (S : List (String × ℚ)) :
    runDedup ⟨w, S⟩ cs = ⟨w, (runDedup ⟨w, S⟩ cs).seen⟩ := by
  have h := runDedup_window cs (⟨w, S⟩ : DeduplicationWindow)
  cases he : runDedup ⟨w, S⟩ cs with
  | mk ws sn =>
    rw [he] at h
    simp only [DeduplicationWindow.mk.injEq, and_true]
    exact h

lemma runAllow_eta (ts : List ℚ) (m : Nat) (S : List ℚ) :
    runAllow ⟨m, S⟩ ts = ⟨m, (runAllow ⟨m, S⟩ ts).timestamps⟩ := by
  have h := runAllow_max ts (⟨m, S⟩ : RateLimiter)
  cases he : runAllow ⟨m, S⟩ ts with
  | mk ws sn =>
    rw [he] at h
    simp only [RateLimiter.mk.injEq, and_true]
    exact h

/-- C9 (amended): both gates return pure pass/fail decisions that are
deterministic functions of the gate's current internal state and the event
(key and time): any two call histories that lead to the same internal state,
followed by the same next event, yield the same decision — but the decision
does depend on which events were previously passed through the gate, through
that state (see the counterexample). -/
theorem C9_gate_state_determinism :
    (∀ (w : ℚ) (h1 h2 : List (String × ℚ)) (k : String) (nw : ℚ),
      (runDedup ⟨w, []⟩ h1).seen = (runDedup ⟨w, []⟩ h2).seen →
      ((runDedup ⟨w, []⟩ h1).is_new k nw).1 = ((runDedup ⟨w, []⟩ h2).is_new k nw).1)
    ∧ (∀ (m : Nat) (ts1 ts2 : List ℚ) (nw : ℚ),
      (runAllow ⟨m, []⟩ ts1).timestamps = (runAllow ⟨m, []⟩ ts2).timestamps →
      ((runAllow ⟨m, []⟩ ts1).allow nw).1 = ((runAllow ⟨m, []⟩ ts2).allow nw).1) := by
  constructor
  · intro w h1 h2 k nw hseen
    rw [runDedup_eta h1 w [], runDedup_eta h2 w [], hseen]
  · intro m ts1 ts2 nw hts
    rw [runAllow_eta ts1 m [], runAllow_eta ts2 m [], hts]

theorem C9_gate_state_determinism_witness :
    (((runDedup ⟨5, []⟩ []).is_new "k" 1).1 = ((runDedup ⟨5, []⟩ []).is_new "k" 1).1)
    ∧ (((runAllow ⟨1, []⟩ []).allow 1).1 = ((runAllow ⟨1, []⟩ []).allow 1).1) :=
  ⟨C9_gate_state_determinism.1 5 [] [] "k" 1 rfl,
    C9_gate_state_determinism.2 1 [] [] 1 rfl⟩

/-- C10: Both ingestion gates record an event only when they accept it: a
rejecting `RateLimiter.allow` call leaves the timestamp list equal to the pure
expiry cleanup of the old list (nothing appended), and a rejecting
`DeduplicationWindow.is_new` call leaves the seen-map equal to the pure expiry
cleanup of the old map (the stored time for the key is not refreshed, every
surviving entry was already present); the configuration fields are unchanged. -/
theorem C10_reject_frame :
    (∀ (rl : RateLimiter) (now : ℚ), (rl.allow now).1 = false →
      (rl.allow now).2.timestamps = rl.timestamps.filter (fun u => now - u < 1)
      ∧ (rl.allow now).2.maxEvents = rl.maxEvents)
    ∧ (∀ (d : DeduplicationWindow) (k : String) (now : ℚ), (d.is_new k now).1 = false →
      (d.is_new k now).2.seen = d.seen.filter (fun p => now - p.2 ≤ d.windowSeconds)
      ∧ (d.is_new k now).2.windowSeconds = d.windowSeconds
      ∧ ∀ p ∈ (d.is_new k now).2.seen, p ∈ d.seen) := by
  constructor
  · intro rl now hdec
    unfold RateLimiter.allow at hdec ⊢
    by_cases hM : rl.maxEvents ≤ (rl.timestamps.filter (fun u => now - u < 1)).length
    · rw [if_pos hM]
      exact ⟨rfl, rfl⟩
    · rw [if_neg hM] at hdec
      simp at hdec
  · intro d k now hdec
    unfold DeduplicationWindow.is_new at hdec ⊢
    by_cases hK : ((d.seen.filter (fun p => now - p.2 ≤ d.windowSeconds)).find?
        (fun p => p.1 = k)).isSome
    · rw [if_pos hK]
      exact ⟨rfl, rfl, fun p hp => (List.mem_filter.mp hp).1⟩
    · rw [if_neg hK] at hdec
      simp at hdec

theorem C10_reject_frame_witness :
    (((⟨0, []⟩ : RateLimiter).allow 0).2.timestamps
        = ([] : List ℚ).filter (fun u => (0 : ℚ) - u < 1)
      ∧ ((⟨0, []⟩ : RateLimiter).allow 0).2.maxEvents = 0)
    ∧ (((⟨5, [("k", 0)]⟩ : DeduplicationWindow).is_new "k" 0).2.seen
        = [("k", (0 : ℚ))].filter (fun p => (0 : ℚ) - p.2 ≤ 5)
      ∧ ((⟨5, [("k", 0)]⟩ : DeduplicationWindow).is_new "k" 0).2.windowSeconds = 5
      ∧ ∀ p ∈ ((⟨5, [("k", 0)]⟩ : DeduplicationWindow).is_new "k" 0).2.seen,
          p ∈ [("k", (0 : ℚ))]) := by
  have hfalse : ((⟨5, [("k", 0)]⟩ : DeduplicationWindow).is_new "k" 0).1 = false := by
    have e1 : ((0 : ℚ) - 0 ≤ 5) := by norm_num
    simp [DeduplicationWindow.is_new, List.filter_cons, e1]
  exact ⟨C10_reject_frame.1 ⟨0, []⟩ 0 rfl, C10_reject_frame.2 ⟨5, [("k", 0)]⟩ "k" 0 hfalse⟩
